import Mathlib

/-!
Verification of the worklog note system: data model, markdown note codec,
note discovery, daily reconciliation, and the summary client, shallowly
embedded from the Go sources (`internal/notes`, `internal/summarizer`,
`cmd/start.go`).  Strings are modelled by Lean `String` with explicit
character-list primitives mirroring Go's `strings` package.
-/

/-! ## String primitives (models of Go `strings` functions) -/

/-- Model of `strings.TrimSpace` on character lists: drop whitespace from
both ends. -/
def trimChars (l : List Char) : List Char :=
  ((l.dropWhile Char.isWhitespace).reverse.dropWhile Char.isWhitespace).reverse

/-- Model of `strings.TrimSpace`. -/
def strTrim (s : String) : String :=
  String.mk (trimChars s.data)

/-- Model of `strings.HasPrefix`. -/
def strStartsWith (s p : String) : Bool :=
  p.data.isPrefixOf s.data

/-- Model of `strings.HasSuffix`. -/
def strEndsWith (s p : String) : Bool :=
  p.data.isSuffixOf s.data

/-- Model of dropping the first `n` bytes of a string (`s[n:]`), as used by
`strings.TrimPrefix` once the prefix is known present. -/
def strDrop (s : String) (n : Nat) : String :=
  String.mk (s.data.drop n)

/-- ASCII lowercase of a single character, as the byte-wise loop in
`ToLowerCase` does it. -/
def lowerChar (c : Char) : Char :=
  if 'A' ≤ c ∧ c ≤ 'Z' then Char.ofNat (c.toNat + 32) else c

/-- Model of `notes.ToLowerCase` (byte-wise ASCII lowercasing). -/
def toLowerCase (s : String) : String :=
  String.mk (s.data.map lowerChar)

/-! ## Dates (model of the `time.Time` usage in the sources) -/

/-- A calendar date; the only aspect of Go's `time.Time` the note system
uses. -/
structure Date where
  year : Nat
  month : Nat
  day : Nat
deriving Repr, DecidableEq

/-- The zero `time.Time` is January 1 of year 1. -/
def Date.zero : Date := ⟨1, 1, 1⟩

/-- Model of `time.Time.Before` on pure dates: lexicographic comparison. -/
def Date.before (a b : Date) : Bool :=
  if a.year ≠ b.year then a.year < b.year
  else if a.month ≠ b.month then a.month < b.month
  else a.day < b.day

def isLeap (y : Nat) : Bool :=
  (y % 4 == 0 && y % 100 != 0) || y % 400 == 0

def daysInMonth (y m : Nat) : Nat :=
  if m = 2 then (if isLeap y then 29 else 28)
  else if m = 4 ∨ m = 6 ∨ m = 9 ∨ m = 11 then 30
  else 31

/-- Dates representable in the `YYYY-MM-DD` wire format and valid per Go's
`time` package range checks. -/
def validDate (d : Date) : Prop :=
  d.year ≤ 9999 ∧ 1 ≤ d.month ∧ d.month ≤ 12 ∧ 1 ≤ d.day ∧
    d.day ≤ daysInMonth d.year d.month

instance (d : Date) : Decidable (validDate d) := by
  unfold validDate; infer_instance

/-- The decimal digit character for `n < 10`. -/
def digitChar (n : Nat) : Char := Char.ofNat (48 + n)

/-- Two-digit zero-padded decimal, as `time.Format`'s `01`/`02` verbs. -/
def pad2 (n : Nat) : List Char := [digitChar (n / 10), digitChar (n % 10)]

/-- Four-digit zero-padded decimal, as `time.Format`'s `2006` verb. -/
def pad4 (n : Nat) : List Char :=
  [digitChar (n / 1000), digitChar (n / 100 % 10),
   digitChar (n / 10 % 10), digitChar (n % 10)]

/-- The characters of `date.Format("2006-01-02")`. -/
def dateToIsoChars (d : Date) : List Char :=
  pad4 d.year ++ '-' :: pad2 d.month ++ '-' :: pad2 d.day

/-- Model of `date.Format("2006-01-02")`. -/
def dateToIso (d : Date) : String := String.mk (dateToIsoChars d)

/-- Decimal value of a digit character. -/
def charDigit (c : Char) : Option Nat :=
  if '0' ≤ c ∧ c ≤ '9' then some (c.toNat - 48) else none

/-- Model of `time.Parse("2006-01-02", s)` on the character list of `s`:
exactly ten characters, digit shape, dashes in place, ranges checked. -/
def parseIsoChars : List Char → Option Date
  | [y1, y2, y3, y4, h1, m1, m2, h2, d1, d2] =>
    if h1 = '-' ∧ h2 = '-' then
      match charDigit y1, charDigit y2, charDigit y3, charDigit y4,
            charDigit m1, charDigit m2, charDigit d1, charDigit d2 with
      | some a, some b, some c, some d, some e, some f, some g, some h =>
        let y := ((a * 10 + b) * 10 + c) * 10 + d
        let mo := e * 10 + f
        let da := g * 10 + h
        if 1 ≤ mo ∧ mo ≤ 12 ∧ 1 ≤ da ∧ da ≤ daysInMonth y mo then
          some ⟨y, mo, da⟩
        else none
      | _, _, _, _, _, _, _, _ => none
    else none
  | _ => none

/-- Model of `time.Parse("2006-01-02", s)`. -/
def parseIso (s : String) : Option Date := parseIsoChars s.data

/-- Decimal digits of a natural number, most significant first (model of
`time.Format`'s unpadded `2` day verb and of integer formatting). -/
def natChars (n : Nat) : List Char :=
  if _h : n < 10 then [digitChar n]
  else natChars (n / 10) ++ [digitChar (n % 10)]
decreasing_by
  exact Nat.div_lt_self (by omega) (by omega)

/-- Three-letter month abbreviation, `time.Format`'s `Jan` verb. -/
def monthAbbrev (m : Nat) : String :=
  if m = 1 then "Jan" else if m = 2 then "Feb" else if m = 3 then "Mar"
  else if m = 4 then "Apr" else if m = 5 then "May" else if m = 6 then "Jun"
  else if m = 7 then "Jul" else if m = 8 then "Aug" else if m = 9 then "Sep"
  else if m = 10 then "Oct" else if m = 11 then "Nov" else if m = 12 then "Dec"
  else ""

/-- Model of `date.Format("2-Jan-2006")`. -/
def dateDayMonYear (d : Date) : String :=
  String.mk (natChars d.day) ++ "-" ++ monthAbbrev d.month ++ "-" ++
    String.mk (pad4 d.year)

/-! ## The Note document model (`internal/notes/note.go`) -/

/-- A single work item (pending or completed). -/
structure WorkItem where
  text : String
  completed : Bool
deriving Repr, DecidableEq

/-- A daily work note. -/
structure Note where
  id : String := ""
  aliases : List String := []
  tags : List String := []
  date : Date := Date.zero
  title : String := ""
  summary : String := ""
  yesterdaySummary : String := ""
  pendingWork : List WorkItem := []
  completedWork : List WorkItem := []
  filePath : String := ""
deriving Repr, DecidableEq

/-- `generateID`: note ID in format `WorkplaceName-D-Mon-YYYY`. -/
def generateID (date : Date) (workplaceName : String) : String :=
  workplaceName ++ "-" ++ dateDayMonYear date

/-- `GenerateFilename`: `YYYY-MM-DD-WorkplaceName.md`. -/
def generateFilename (date : Date) (workplaceName : String) : String :=
  dateToIso date ++ "-" ++ workplaceName ++ ".md"

/-- `NewNote`: a fresh note for the given date and workplace. -/
def newNote (date : Date) (workplaceName : String) : Note :=
  { id := generateID date workplaceName
    aliases := []
    tags := [toLowerCase workplaceName, "job"]
    date := date
    title := dateToIso date
    summary := ""
    yesterdaySummary := ""
    pendingWork := []
    completedWork := [] }

/-- `HasPendingWork`. -/
def Note.hasPendingWork (n : Note) : Bool := n.pendingWork.length > 0

/-- `HasCompletedWork`. -/
def Note.hasCompletedWork (n : Note) : Bool := n.completedWork.length > 0

/-- `AddPendingItem`. -/
def Note.addPendingItem (n : Note) (text : String) : Note :=
  { n with pendingWork := n.pendingWork ++ [{ text := text, completed := false }] }

/-- `AddCompletedItem`. -/
def Note.addCompletedItem (n : Note) (text : String) : Note :=
  { n with completedWork := n.completedWork ++ [{ text := text, completed := true }] }

/-- `MarkItemCompleted`: move a pending item to completed; Go `int` indices
are modelled by `Int`. -/
def Note.markItemCompleted (n : Note) (index : Int) : Note :=
  if 0 ≤ index ∧ index < (n.pendingWork.length : Int) then
    let i := index.toNat
    match n.pendingWork.get? i with
    | some item =>
      { n with
        completedWork := n.completedWork ++ [{ item with completed := true }]
        pendingWork := n.pendingWork.take i ++ n.pendingWork.drop (i + 1) }
    | none => n
  else n

/-- `RemovePendingItem`. -/
def Note.removePendingItem (n : Note) (index : Int) : Note :=
  if 0 ≤ index ∧ index < (n.pendingWork.length : Int) then
    let i := index.toNat
    { n with pendingWork := n.pendingWork.take i ++ n.pendingWork.drop (i + 1) }
  else n

/-- `RemoveCompletedItem`. -/
def Note.removeCompletedItem (n : Note) (index : Int) : Note :=
  if 0 ≤ index ∧ index < (n.completedWork.length : Int) then
    let i := index.toNat
    { n with completedWork := n.completedWork.take i ++ n.completedWork.drop (i + 1) }
  else n

/-! ## The note parser (`internal/notes/parser.go`) -/

/-- The apostrophe character (codepoint 39). -/
def apos : Char := Char.ofNat 39

def idKey : String := "id:"
def dateKey : String := "date:"
def tagBullet : String := "  - "
def titleMark : String := "# "
def summaryMark : String := "summary::"
/-- The marker of the previous-day-summary line. -/
def ySummaryMark : String := "yesterday" ++ String.mk [apos] ++ "s summary::"
def pendingHeader : String := "## Pending Work"
def completedHeader : String := "## Work Completed"
def uncheckedMark : String := "- [ ] "
def checkedLowerMark : String := "- [x] "
def checkedUpperMark : String := "- [X] "

/-- `Parser`: bound to a notes directory and one workplace. -/
structure Parser where
  notesDir : String
  workplaceName : String

/-- `parseFrontmatterLine`: scan one line inside the frontmatter block. -/
def parseFrontmatterLine (line : String) (note : Note) : Note :=
  if strStartsWith line idKey then
    { note with id := strTrim (strDrop line 3) }
  else if strStartsWith line dateKey then
    match parseIso (strTrim (strDrop line 5)) with
    | some t => { note with date := t }
    | none => note
  else if strStartsWith line tagBullet then
    { note with tags := note.tags ++ [strTrim (strDrop line 4)] }
  else note

/-- `parseWorkItem`: the checkbox grammar on a trimmed line. -/
def parseWorkItem (line : String) : Option WorkItem :=
  let t := strTrim line
  if strStartsWith t uncheckedMark then
    some { text := strDrop t 6, completed := false }
  else if strStartsWith t checkedLowerMark || strStartsWith t checkedUpperMark then
    let text := if strStartsWith t checkedLowerMark then strDrop t 6 else t
    let text := if strStartsWith text checkedUpperMark then strDrop text 6 else text
    some { text := text, completed := true }
  else none

/-- The scanner state of `ParseFile`: the three region flags plus the note
under construction. -/
structure ParseState where
  inFrontmatter : Bool
  inPending : Bool
  inCompleted : Bool
  note : Note

/-- One iteration of the `ParseFile` scanner loop. -/
def parseLine (p : ParseState) (line : String) : ParseState :=
  if line = "---" then
    { p with inFrontmatter := !p.inFrontmatter }
  else if p.inFrontmatter then
    { p with note := parseFrontmatterLine line p.note }
  else if strStartsWith line titleMark then
    { p with note := { p.note with title := strDrop line 2 } }
  else if strStartsWith line summaryMark then
    { p with note := { p.note with summary := strTrim (strDrop line 9) } }
  else if strStartsWith line ySummaryMark then
    { p with note := { p.note with yesterdaySummary := strTrim (strDrop line 21) } }
  else if strStartsWith line pendingHeader then
    { p with inPending := true, inCompleted := false }
  else if strStartsWith line completedHeader then
    { p with inPending := false, inCompleted := true }
  else
    let p1 :=
      if p.inPending then
        match parseWorkItem line with
        | some item =>
          { p with note := { p.note with
              pendingWork := p.note.pendingWork ++ [item] } }
        | none => p
      else p
    if p1.inCompleted then
      match parseWorkItem line with
      | some item =>
        { p1 with note := { p1.note with
            completedWork := p1.note.completedWork ++ [item] } }
      | none => p1
    else p1

/-- The note `ParseFile` starts from. -/
def initialNote (filePath : String) : Note :=
  { filePath := filePath, aliases := [], tags := [],
    pendingWork := [], completedWork := [] }

/-- The pure core of `ParseFile`: scan the file's lines. -/
def parseLines (filePath : String) (lines : List String) : Note :=
  (lines.foldl parseLine ⟨false, false, false, initialNote filePath⟩).note

/-- A directory of note files: basename to content lines (relative to the
parser's notes directory). -/
abbrev FileSys := List (String × List String)

/-- Read a file's lines, `none` when the file cannot be opened. -/
def fsRead (fs : FileSys) (path : String) : Option (List String) :=
  (fs.find? (fun e => e.1 == path)).map (fun e => e.2)

/-- `ParseFile`, I/O included: opening the file is the only failure. -/
def parseFile (fs : FileSys) (filePath : String) : Except String Note :=
  match fsRead fs filePath with
  | none => .error "open failed"
  | some lines => .ok (parseLines filePath lines)

/-- The date embedded in a note filename, per the regular expression
`^(\d{4}-\d{2}-\d{2})-.*\.md$` followed by `time.Parse`. -/
def filenameDate (basename : String) : Option Date :=
  let cs := basename.data
  if 14 ≤ cs.length ∧ cs.getD 10 ' ' = '-' ∧ strEndsWith basename ".md" then
    parseIsoChars (cs.take 10)
  else none

/-- The glob `*-<workplace>.md` restricted to basenames. -/
def matchesWorkplaceGlob (p : Parser) (basename : String) : Bool :=
  strEndsWith basename ("-" ++ p.workplaceName ++ ".md")

/-- The dated candidate files strictly before the query date, in directory
order, as the loop in `FindMostRecentNote` collects them. -/
def candidates (p : Parser) (fs : FileSys) (beforeDate : Date) :
    List (String × Date) :=
  ((fs.map Prod.fst).filter (matchesWorkplaceGlob p)).filterMap
    (fun f => match filenameDate f with
      | some d => if d.before beforeDate then some (f, d) else none
      | none => none)

/-- Insertion step of the descending-by-date sort
(`sort.Slice` with `date.After`). -/
def insertByAfter (x : String × Date) : List (String × Date) → List (String × Date)
  | [] => [x]
  | y :: ys => if y.2.before x.2 then x :: y :: ys else y :: insertByAfter x ys

/-- Sort candidates by date, most recent first. -/
def sortByDateDesc (l : List (String × Date)) : List (String × Date) :=
  l.foldr insertByAfter []

/-- `FindMostRecentNote`: the most recent note strictly before the given
date, or `none`. -/
def findMostRecentNote (p : Parser) (fs : FileSys) (beforeDate : Date) :
    Option Note :=
  let files := (fs.map Prod.fst).filter (matchesWorkplaceGlob p)
  if files.isEmpty then none
  else
    match (sortByDateDesc (candidates p fs beforeDate)).head? with
    | none => none
    | some fd => (fsRead fs fd.1).map (fun lines => parseLines fd.1 lines)

/-! ## The note writer (missing from the sources; modelled from the spec) -/

/-- Modelled from the spec: the note Writer (`Encode`, `internal/notes`
writer file) is not present under the sources, only its callers; §4.1
"Encode" and the README note-format example fix its output: frontmatter
(`id`, `aliases` as `[]` when empty or a bulleted list, `tags` bulleted,
`date` in `YYYY-MM-DD`), a `# title` heading, conditional `summary::` and
previous-day-summary lines, then the two checkbox sections. -/
def encodeNote (n : Note) : List String :=
  ["---", "id: " ++ n.id]
  ++ (if n.aliases.isEmpty then ["aliases: []"]
      else "aliases:" :: n.aliases.map (fun a => "  - " ++ a))
  ++ ("tags:" :: n.tags.map (fun t => "  - " ++ t))
  ++ ["date: " ++ dateToIso n.date, "---", "", "# " ++ n.title, ""]
  ++ (if n.summary = "" then [] else ["summary:: " ++ n.summary, ""])
  ++ (if n.yesterdaySummary = "" then []
      else [ySummaryMark ++ " " ++ n.yesterdaySummary, ""])
  ++ ["## Pending Work", ""]
  ++ n.pendingWork.map (fun item => "- [ ] " ++ item.text)
  ++ ["", "## Work Completed", ""]
  ++ n.completedWork.map (fun item => "- [x] " ++ item.text)

/-! ## Daily reconciliation (`cmd/start.go`, pending-review block) -/

/-- The interactive review loop (`SelectPendingItems`): one yes/no verdict
per pending item, in display order; the indices answered yes, ascending. -/
def selectIndices (verdicts : List Bool) : List Nat :=
  verdicts.enum.filterMap (fun p => if p.2 then some p.1 else none)

/-- Insertion step of `sort.Sort(sort.Reverse(sort.IntSlice(...)))`. -/
def insertDescNat (x : Nat) : List Nat → List Nat
  | [] => [x]
  | y :: ys => if y < x then x :: y :: ys else y :: insertDescNat x ys

/-- Sort indices in descending order. -/
def sortDescNat (l : List Nat) : List Nat := l.foldr insertDescNat []

/-- The pending-review block of `runStart` (lines 76–118): consume the
per-item verdict indices, append completed items to the previous note's
completed section in descending index order, carry the rest forward to
today's pending section in original order, then clear the previous note's
pending section. -/
def reconcilePending (previousNote todayNote : Note)
    (completedIndices : List Nat) : Note × Note :=
  if previousNote.hasPendingWork then
    let sorted := sortDescNat completedIndices
    let prev1 := { previousNote with
      completedWork := previousNote.completedWork ++ sorted.map (fun idx =>
        ({ text := ((previousNote.pendingWork.get? idx).getD
             ({ text := "", completed := false } : WorkItem)).text
           completed := true } : WorkItem)) }
    let today1 := { todayNote with
      pendingWork := todayNote.pendingWork ++
        previousNote.pendingWork.enum.filterMap (fun p =>
          if completedIndices.contains p.1 then none
          else some { text := p.2.text, completed := false }) }
    let prev2 := { prev1 with pendingWork := [] }
    (prev2, today1)
  else (previousNote, todayNote)

/-! ## The summary session client (`internal/summarizer/client.go`),
de-timed: the SSE listener, delays and timeouts are abstracted away, and
every HTTP request the control flow issues is recorded in order. -/

structure Session where
  id : String
deriving Repr, DecidableEq

structure MessageInfo where
  id : String
  role : String
deriving Repr, DecidableEq

structure MessagePart where
  type : String
  text : String
deriving Repr, DecidableEq

structure MessageResponse where
  info : MessageInfo
  parts : List MessagePart
deriving Repr, DecidableEq

structure HttpRequest where
  method : String
  url : String
deriving Repr, DecidableEq

/-- The client configuration (`summarizer.Client`). -/
structure SummarizerClient where
  baseURL : String
  providerID : String
  modelID : String

/-- The remote backend's behaviour during one `SummarizeWorkItems` call:
what session creation returns, whether the send is accepted, and the
message lists the two retrievals observe. -/
structure Backend where
  createSession : Except String Session
  sendOk : Bool
  messages : Except String (List MessageResponse)
  pollMessages : Except String (List MessageResponse)

/-- `extractAssistantResponse`: concatenate the non-empty text parts of
assistant messages, trimmed. -/
def extractAssistantResponse (messages : List MessageResponse) : String :=
  strTrim (String.join (messages.map (fun msg =>
    if msg.info.role == "assistant" then
      String.join (msg.parts.map (fun part =>
        if part.type == "text" && part.text != "" then part.text else ""))
    else "")))

/-- The prompt `SummarizeWorkItems` builds: fixed preamble plus one bullet
line per item. -/
def buildPrompt (items : List WorkItem) : String :=
  "Summarize the following completed work items in 1-2 concise sentences. Focus on the key accomplishments and outcomes. Keep it brief and professional. Do not use any tools, just respond with plain text:\n\n"
  ++ String.join (items.map (fun item => "- " ++ item.text ++ "\n"))

/-- `SummarizeWorkItems`, with the request log made explicit.  Empty input
short-circuits before any request; otherwise: create session, open the
event stream, send the prompt, fetch messages, and fall back to polling
plus a second fetch when no assistant text arrived. -/
def summarizeWorkItems (c : SummarizerClient) (b : Backend)
    (items : List WorkItem) : Except String String × List HttpRequest :=
  if items.length = 0 then (.ok "No work items to summarize.", [])
  else
    let log0 : List HttpRequest := [⟨"POST", c.baseURL ++ "/session"⟩]
    match b.createSession with
    | .error e => (.error ("failed to create session: " ++ e), log0)
    | .ok session =>
      let log1 := log0 ++
        [⟨"GET", c.baseURL ++ "/event"⟩,
         ⟨"POST", c.baseURL ++ "/session/" ++ session.id ++ "/message"⟩]
      if !b.sendOk then (.error "failed to send message", log1)
      else
        let log2 := log1 ++
          [⟨"GET", c.baseURL ++ "/session/" ++ session.id ++ "/message"⟩]
        match b.messages with
        | .error e => (.error ("failed to get messages: " ++ e), log2)
        | .ok msgs =>
          let response := extractAssistantResponse msgs
          if response ≠ "" then (.ok response, log2)
          else
            let log3 := log2 ++
              [⟨"GET", c.baseURL ++ "/session/" ++ session.id ++ "/message"⟩]
            match b.pollMessages with
            | .error e => (.error ("no response received from AI: " ++ e), log3)
            | .ok msgs2 =>
              let r2 := extractAssistantResponse msgs2
              if r2 ≠ "" then (.ok r2, log3)
              else (.error "no response received from AI", log3)

/-! ## Helper lemmas on the string primitives -/

theorem isPrefixOf_iff_append {l m : List Char} :
    l.isPrefixOf m = true ↔ ∃ t, m = l ++ t := by
  induction l generalizing m with
  | nil => simp [List.isPrefixOf]
  | cons a as ih =>
    cases m with
    | nil => simp [List.isPrefixOf]
    | cons b bs =>
      simp only [List.isPrefixOf, Bool.and_eq_true, beq_iff_eq, ih,
        List.cons_append, List.cons.injEq]
      constructor
      · rintro ⟨h1, t, h2⟩; exact ⟨t, h1.symm, h2⟩
      · rintro ⟨t, h1, h2⟩; exact ⟨h1.symm, t, h2⟩

theorem strStartsWith_iff {s p : String} :
    strStartsWith s p = true ↔ ∃ t, s.data = p.data ++ t := by
  unfold strStartsWith; exact isPrefixOf_iff_append

theorem strStartsWith_append (p s : String) :
    strStartsWith (p ++ s) p = true := by
  rw [strStartsWith_iff]
  exact ⟨s.data, by simp [String.data_append]⟩

theorem strMk_data (s : String) : String.mk s.data = s := rfl

theorem trimChars_nil : trimChars [] = [] := rfl

theorem trimChars_ws_cons {c : Char} (h : c.isWhitespace = true) (l : List Char) :
    trimChars (c :: l) = trimChars l := by
  unfold trimChars
  rw [List.dropWhile_cons, if_pos h]

theorem trimChars_eq_self {l : List Char}
    (h1 : ∀ c ∈ l.head?, c.isWhitespace = false)
    (h2 : ∀ c ∈ l.getLast?, c.isWhitespace = false) :
    trimChars l = l := by
  unfold trimChars
  have hd : l.dropWhile Char.isWhitespace = l := by
    cases l with
    | nil => rfl
    | cons a as =>
      rw [List.dropWhile_cons, if_neg]
      simp only [List.head?] at h1
      simp [h1 a rfl]
  rw [hd]
  have hr : l.reverse.dropWhile Char.isWhitespace = l.reverse := by
    cases hrev : l.reverse with
    | nil => rfl
    | cons a as =>
      rw [List.dropWhile_cons, if_neg]
      have : l.getLast? = some a := by
        rw [List.getLast?_eq_head?_reverse, hrev]; rfl
      simp [h2 a this]
  rw [hr, List.reverse_reverse]

/-- No leading or trailing whitespace and no newline: a string that
survives a line round trip unchanged. -/
def goodLine (s : String) : Prop :=
  (∀ c ∈ s.data.head?, c.isWhitespace = false) ∧
  (∀ c ∈ s.data.getLast?, c.isWhitespace = false) ∧
  '\n' ∉ s.data

/-- A work-item text safe for the checkbox line format: a nonempty good
line that does not itself start with the checked-uppercase marker. -/
def goodText (s : String) : Prop :=
  goodLine s ∧ s.data ≠ [] ∧ strStartsWith s checkedUpperMark = false

theorem trimChars_of_goodLine {s : String} (h : goodLine s) :
    trimChars s.data = s.data :=
  trimChars_eq_self h.1 h.2.1

/-! ## C5 / C6: MarkItemCompleted -/

/-- C5: an out-of-bounds index leaves the note entirely unchanged. -/
theorem markItemCompleted_oob (n : Note) (i : Int)
    (h : i < 0 ∨ (n.pendingWork.length : Int) ≤ i) :
    n.markItemCompleted i = n := by
  unfold Note.markItemCompleted
  rw [if_neg]
  omega

theorem markItemCompleted_oob_witness :
    ((-1 : Int) < 0 ∨ ((({} : Note).pendingWork.length : Int) ≤ -1)) ∧
      ({} : Note).markItemCompleted (-1) = ({} : Note) :=
  ⟨Or.inl (by decide), markItemCompleted_oob {} (-1) (Or.inl (by decide))⟩

/-- C6: an in-bounds index moves exactly the indexed item. -/
theorem markItemCompleted_inbounds (n : Note) (i : Int) (item : WorkItem)
    (h0 : 0 ≤ i) (hget : n.pendingWork.get? i.toNat = some item) :
    (n.markItemCompleted i).pendingWork =
      n.pendingWork.take i.toNat ++ n.pendingWork.drop (i.toNat + 1) ∧
    (n.markItemCompleted i).completedWork =
      n.completedWork ++ [{ text := item.text, completed := true }] ∧
    (n.markItemCompleted i).id = n.id ∧
    (n.markItemCompleted i).aliases = n.aliases ∧
    (n.markItemCompleted i).tags = n.tags ∧
    (n.markItemCompleted i).date = n.date ∧
    (n.markItemCompleted i).title = n.title ∧
    (n.markItemCompleted i).summary = n.summary ∧
    (n.markItemCompleted i).yesterdaySummary = n.yesterdaySummary ∧
    (n.markItemCompleted i).filePath = n.filePath := by
  have hlt : i.toNat < n.pendingWork.length := (List.get?_eq_some.mp hget).1
  unfold Note.markItemCompleted
  rw [if_pos (by omega)]
  simp only [hget]
  cases item
  simp

theorem markItemCompleted_inbounds_witness :
    (({ pendingWork := [⟨"a", false⟩, ⟨"b", false⟩] } : Note).markItemCompleted 0).pendingWork =
        [⟨"b", false⟩] ∧
    (({ pendingWork := [⟨"a", false⟩, ⟨"b", false⟩] } : Note).markItemCompleted 0).completedWork =
        [⟨"a", true⟩] := by
  have h := markItemCompleted_inbounds
    ({ pendingWork := [⟨"a", false⟩, ⟨"b", false⟩] } : Note) 0 ⟨"a", false⟩
    (by decide) rfl
  exact ⟨h.1, h.2.1⟩

/-! ## C7: empty-summary short circuit -/

/-- C7: `SummarizeWorkItems` on an empty item list succeeds with the fixed
placeholder, making no HTTP request at all (in particular no session is
created). -/
theorem summarize_empty (c : SummarizerClient) (b : Backend) :
    summarizeWorkItems c b [] = (.ok "No work items to summarize.", []) := by
  simp [summarizeWorkItems]

theorem tagBullet_data : tagBullet.data = [' ', ' ', '-', ' '] := rfl
theorem idKey_data : idKey.data = ['i', 'd', ':'] := rfl
theorem dateKey_data : dateKey.data = ['d', 'a', 't', 'e', ':'] := rfl

example (t u : List Char) (hu : tagBullet.data ++ t = idKey.data ++ u) : False := by
  rw [tagBullet_data, idKey_data] at hu
  simp at hu

theorem strStartsWith_false_of_data {s p : String} (l : List Char)
    (hs : s.data = l) (h : ∀ u, l ≠ p.data ++ u) :
    strStartsWith s p = false := by
  rw [Bool.eq_false_iff]
  intro hc
  obtain ⟨u, hu⟩ := strStartsWith_iff.mp hc
  exact h u (hs ▸ hu)

theorem uncheckedMark_data : uncheckedMark.data = ['-', ' ', '[', ' ', ']', ' '] := rfl
theorem checkedLowerMark_data : checkedLowerMark.data = ['-', ' ', '[', 'x', ']', ' '] := rfl
theorem checkedUpperMark_data : checkedUpperMark.data = ['-', ' ', '[', 'X', ']', ' '] := rfl

/-- Aliases are untouched by every frontmatter line. -/
theorem parseFrontmatterLine_aliases (note : Note) (line : String) :
    (parseFrontmatterLine line note).aliases = note.aliases := by
  unfold parseFrontmatterLine
  repeat' split
  all_goals rfl

/-- Aliases are untouched by every scanner step. -/
theorem parseLine_aliases (p : ParseState) (line : String) :
    (parseLine p line).note.aliases = p.note.aliases := by
  unfold parseLine
  repeat' split
  all_goals try rfl
  all_goals try exact parseFrontmatterLine_aliases _ _
  all_goals dsimp only
  all_goals split <;> rfl

/-- C9: inside frontmatter, every line starting with two spaces and a
dash-space bullet appends its trimmed remainder to `tags`, whatever block
it came from, and the decoder never populates `aliases`. -/
theorem frontmatter_bullet_tags :
    (∀ (note : Note) (line : String), strStartsWith line tagBullet = true →
      parseFrontmatterLine line note =
        { note with tags := note.tags ++ [strTrim (strDrop line 4)] }) ∧
    (∀ (note : Note) (line : String),
      (parseFrontmatterLine line note).aliases = note.aliases) ∧
    (∀ (fp : String) (lines : List String),
      (parseLines fp lines).aliases = []) := by
  refine ⟨?_, parseFrontmatterLine_aliases, ?_⟩
  · intro note line h
    obtain ⟨t, ht⟩ := strStartsWith_iff.mp h
    rw [tagBullet_data] at ht
    unfold parseFrontmatterLine
    rw [strStartsWith_false_of_data _ ht (by rw [idKey_data]; intro u; simp),
      strStartsWith_false_of_data _ ht (by rw [dateKey_data]; intro u; simp)]
    simp [h]
  · intro fp lines
    suffices h : ∀ (p : ParseState),
        ((lines.foldl parseLine p).note.aliases = p.note.aliases) by
      rw [parseLines, h]; rfl
    induction lines with
    | nil => intro p; rfl
    | cons l ls ih =>
      intro p
      rw [List.foldl_cons, ih, parseLine_aliases]

theorem frontmatter_bullet_tags_witness :
    parseFrontmatterLine "  - foo" ({} : Note) = { tags := ["foo"] } := by
  have h := frontmatter_bullet_tags.1 ({} : Note) "  - foo" (by decide)
  exact h.trans (by decide)

/-! ## C8: decode fails on unreadable files only -/

/-- C8: `ParseFile` errs exactly when the file cannot be opened; readable
content always parses, and a `date:` line whose value does not parse
leaves the note untouched (so the date stays at its zero value). -/
theorem parseFile_error_only_on_io :
    (∀ (fs : FileSys) (path : String) (lines : List String),
      fsRead fs path = some lines →
        parseFile fs path = .ok (parseLines path lines)) ∧
    (∀ (fs : FileSys) (path : String),
      parseFile fs path = .error "open failed" ↔ fsRead fs path = none) ∧
    (∀ (note : Note) (line : String), strStartsWith line dateKey = true →
      parseIso (strTrim (strDrop line 5)) = none →
      parseFrontmatterLine line note = note) ∧
    (parseLines "f" ["---", "date: garbage", "---"]).date = Date.zero := by
  refine ⟨?_, ?_, ?_, by decide⟩
  · intro fs path lines h
    unfold parseFile
    rw [h]
  · intro fs path
    unfold parseFile
    cases h : fsRead fs path <;> simp
  · intro note line h hdate
    obtain ⟨t, ht⟩ := strStartsWith_iff.mp h
    rw [dateKey_data] at ht
    unfold parseFrontmatterLine
    rw [strStartsWith_false_of_data _ ht (by rw [idKey_data]; intro u; simp),
      hdate]
    simp [h]

theorem parseFile_error_only_on_io_witness :
    parseFile [("a.md", ["# t"])] "a.md" = .ok (parseLines "a.md" ["# t"]) ∧
    parseFrontmatterLine "date: garbage" ({} : Note) = ({} : Note) :=
  ⟨parseFile_error_only_on_io.1 [("a.md", ["# t"])] "a.md" ["# t"] rfl,
   parseFile_error_only_on_io.2.2.1 ({} : Note) "date: garbage" (by decide)
     (by decide)⟩

/-! ## C10: only the two section headers switch the active section -/

/-- C10: only lines starting with the pending or completed header change
the section flags; any other line (any other heading included) leaves them
unchanged, so a checkbox line after an unrecognized heading inside the
pending section is still collected. -/
theorem section_flags_stable :
    (∀ (p : ParseState) (line : String),
      strStartsWith line pendingHeader = false →
      strStartsWith line completedHeader = false →
      (parseLine p line).inPending = p.inPending ∧
      (parseLine p line).inCompleted = p.inCompleted) ∧
    (parseLines "f" ["## Pending Work", "## Notes", "- [ ] task"]).pendingWork =
      [{ text := "task", completed := false }] := by
  refine ⟨?_, by decide⟩
  intro p line h1 h2
  unfold parseLine
  rw [h1, h2]
  simp only [Bool.false_eq_true, if_false]
  repeat' split
  all_goals exact ⟨rfl, rfl⟩

theorem section_flags_stable_witness :
    (parseLine ⟨false, true, false, {}⟩ "## Notes").inPending = true ∧
    (parseLine ⟨false, true, false, {}⟩ "## Notes").inCompleted = false := by
  have h := section_flags_stable.1 ⟨false, true, false, {}⟩ "## Notes"
    (by decide) (by decide)
  exact h

/-! ## C4: the checkbox grammar -/

/-- C4: on a line whose trimmed form starts with the unchecked marker the
parser yields the unchecked item with the remainder as text; a trimmed
line starting with either checked marker yields a checked item; anything
else yields no item — including `- [z]` lines inside a section, which are
ignored without error. -/
theorem parseWorkItem_grammar :
    (∀ line : String, strStartsWith (strTrim line) uncheckedMark = true →
      parseWorkItem line =
        some { text := strDrop (strTrim line) 6, completed := false }) ∧
    (∀ line : String,
      (strStartsWith (strTrim line) checkedLowerMark = true ∨
       strStartsWith (strTrim line) checkedUpperMark = true) →
      ∃ t, parseWorkItem line = some { text := t, completed := true }) ∧
    (∀ line : String, strStartsWith (strTrim line) uncheckedMark = false →
      strStartsWith (strTrim line) checkedLowerMark = false →
      strStartsWith (strTrim line) checkedUpperMark = false →
      parseWorkItem line = none) ∧
    parseWorkItem "- [ ] buy milk" = some { text := "buy milk", completed := false } ∧
    parseWorkItem "- [x] ship release" = some { text := "ship release", completed := true } ∧
    parseWorkItem "- [X] ship release" = some { text := "ship release", completed := true } ∧
    parseWorkItem "- [z] nonsense" = none ∧
    (parseLines "f" ["## Pending Work", "- [z] nonsense"]).pendingWork = [] ∧
    (parseLines "f" ["## Work Completed", "- [z] nonsense"]).completedWork = [] := by
  refine ⟨?_, ?_, ?_, by decide, by decide, by decide, by decide, by decide, by decide⟩
  · intro line h
    unfold parseWorkItem
    rw [if_pos h]
  · intro line h
    unfold parseWorkItem
    rcases h with h | h
    · obtain ⟨t, ht⟩ := strStartsWith_iff.mp h
      rw [checkedLowerMark_data] at ht
      rw [if_neg (by
        rw [strStartsWith_false_of_data _ ht
          (by rw [uncheckedMark_data]; intro u; simp)]
        simp)]
      rw [if_pos (by rw [h]; simp)]
      exact ⟨_, rfl⟩
    · obtain ⟨t, ht⟩ := strStartsWith_iff.mp h
      rw [checkedUpperMark_data] at ht
      rw [if_neg (by
        rw [strStartsWith_false_of_data _ ht
          (by rw [uncheckedMark_data]; intro u; simp)]
        simp)]
      rw [if_pos (by rw [h]; simp)]
      exact ⟨_, rfl⟩
  · intro line h1 h2 h3
    unfold parseWorkItem
    dsimp only
    rw [h1, h2, h3]
    simp

theorem parseWorkItem_grammar_witness :
    parseWorkItem "- [ ] a" = some { text := "a", completed := false } ∧
    (∃ t, parseWorkItem "- [x] b" = some { text := t, completed := true }) ∧
    parseWorkItem "* c" = none := by
  refine ⟨?_, parseWorkItem_grammar.2.1 "- [x] b" (Or.inl (by decide)), ?_⟩
  · have h := parseWorkItem_grammar.1 "- [ ] a" (by decide)
    exact h.trans (by decide)
  · exact parseWorkItem_grammar.2.2.1 "* c" (by decide) (by decide) (by decide)

/-! ## C1: the carry-forward reconciliation order -/

/-- The previous note of the spec's reconciliation example. -/
def prevC1 : Note :=
  { pendingWork := [{ text := "A", completed := false },
                    { text := "B", completed := false },
                    { text := "C", completed := false }]
    completedWork := [{ text := "Z", completed := true }] }

/-- Today's note of the spec's reconciliation example. -/
def todayC1 : Note := { pendingWork := [{ text := "T", completed := false }] }

/-- C1 as stated fails: with verdicts `[true, false, true]` the completed
items are appended in descending index order, so the previous note's
completed section gains C before A, not A before C. -/
theorem reconcile_order_counterexample :
    ¬ ((reconcilePending prevC1 todayC1 (selectIndices [true, false, true])).1.completedWork =
      prevC1.completedWork ++
        [{ text := "A", completed := true }, { text := "C", completed := true }]) := by
  decide

/-- C1 amended: the completed items are appended in descending original
index order (C then A), the unfinished item B is carried to today's
pending list, and the previous note's pending list is cleared. -/
theorem reconcile_example :
    reconcilePending prevC1 todayC1 (selectIndices [true, false, true]) =
      ({ prevC1 with
           completedWork := prevC1.completedWork ++
             [{ text := "C", completed := true }, { text := "A", completed := true }]
           pendingWork := [] },
       { todayC1 with
           pendingWork := todayC1.pendingWork ++ [{ text := "B", completed := false }] }) := by
  decide

/-! ## C3: most-recent-before selection -/

theorem before_irrefl (d : Date) : d.before d = false := by
  unfold Date.before
  simp

theorem before_trans {a b c : Date} (h1 : a.before b = true)
    (h2 : b.before c = true) : a.before c = true := by
  unfold Date.before at *
  split_ifs at * <;> simp_all <;> omega

theorem insertByAfter_ne_nil (a : String × Date) (l : List (String × Date)) :
    insertByAfter a l ≠ [] := by
  cases l with
  | nil => simp [insertByAfter]
  | cons y ys =>
    unfold insertByAfter
    split <;> simp

theorem sortByDateDesc_eq_nil_iff (l : List (String × Date)) :
    sortByDateDesc l = [] ↔ l = [] := by
  cases l with
  | nil => simp [sortByDateDesc]
  | cons a t =>
    simp only [sortByDateDesc, List.foldr_cons]
    exact ⟨fun h => absurd h (insertByAfter_ne_nil a _), fun h => by cases h⟩

theorem mem_insertByAfter {x a : String × Date} {l : List (String × Date)} :
    x ∈ insertByAfter a l ↔ x = a ∨ x ∈ l := by
  induction l with
  | nil => simp [insertByAfter]
  | cons y ys ih =>
    unfold insertByAfter
    split
    · simp
    · simp only [List.mem_cons, ih]
      tauto

theorem mem_sortByDateDesc {x : String × Date} {l : List (String × Date)} :
    x ∈ sortByDateDesc l ↔ x ∈ l := by
  induction l with
  | nil => simp [sortByDateDesc]
  | cons a t ih =>
    simp only [sortByDateDesc, List.foldr_cons] at *
    rw [mem_insertByAfter, ih, List.mem_cons]

theorem sortDesc_head_max :
    ∀ (l : List (String × Date)) (x : String × Date)
      (rest : List (String × Date)), sortByDateDesc l = x :: rest →
      x ∈ l ∧ ∀ y ∈ l, x.2.before y.2 = false := by
  intro l
  induction l with
  | nil => intro x rest h; cases h
  | cons a t ih =>
    intro x rest h
    simp only [sortByDateDesc, List.foldr_cons] at h
    rcases hs : sortByDateDesc t with _ | ⟨y, ys⟩
    · have ht : t = [] := (sortByDateDesc_eq_nil_iff t).mp hs
      rw [sortByDateDesc] at hs
      rw [hs] at h
      unfold insertByAfter at h
      cases h
      subst ht
      exact ⟨List.mem_singleton_self a, by
        intro z hz
        rw [List.mem_singleton] at hz
        subst hz
        exact before_irrefl _⟩
    · have hy := ih y ys hs
      rw [sortByDateDesc] at hs
      rw [hs] at h
      unfold insertByAfter at h
      split at h
      · -- y sorts after a: a goes to the front, x = a
        rename_i hcmp
        injection h with h1 h2
        subst h1
        refine ⟨List.mem_cons_self a t, ?_⟩
        intro z hz
        rcases List.mem_cons.mp hz with hz | hz
        · subst hz; exact before_irrefl _
        · refine Bool.eq_false_iff.mpr fun hc => ?_
          have h2 := before_trans hcmp hc
          rw [hy.2 z hz] at h2
          cases h2
      · -- a sorts below y: the previous head stays, x = y
        rename_i hcmp
        injection h with h1 h2
        subst h1
        refine ⟨List.mem_cons_of_mem a hy.1, ?_⟩
        intro z hz
        rcases List.mem_cons.mp hz with hz | hz
        · subst hz
          simpa using hcmp
        · exact hy.2 z hz

/-- The collection step of the `FindMostRecentNote` loop, characterized. -/
theorem candidates_mem_iff (p : Parser) (fs : FileSys) (q : Date)
    (f : String) (d : Date) :
    (f, d) ∈ candidates p fs q ↔
      (f ∈ fs.map Prod.fst ∧ matchesWorkplaceGlob p f = true ∧
       filenameDate f = some d ∧ d.before q = true) := by
  unfold candidates
  rw [List.mem_filterMap]
  constructor
  · rintro ⟨g, hg, hfd⟩
    rcases hfg : filenameDate g with _ | dg <;> rw [hfg] at hfd
    · cases hfd
    · dsimp only at hfd
      split at hfd
      · injection hfd with h1
        obtain ⟨rfl, rfl⟩ := Prod.mk.injEq .. ▸ h1
        have := List.mem_filter.mp hg
        exact ⟨this.1, this.2, hfg, by assumption⟩
      · cases hfd
  · rintro ⟨h1, h2, h3, h4⟩
    refine ⟨f, List.mem_filter.mpr ⟨h1, h2⟩, ?_⟩
    rw [h3]
    dsimp only
    rw [if_pos h4]

/-- A listed file is readable. -/
theorem fsRead_isSome_of_mem {fs : FileSys} {f : String}
    (h : f ∈ fs.map Prod.fst) : ∃ ls, fsRead fs f = some ls := by
  unfold fsRead
  obtain ⟨e, he, rfl⟩ := List.mem_map.mp h
  have : (fs.find? (fun x => x.1 == e.1)).isSome := by
    rw [List.find?_isSome]
    exact ⟨e, he, by simp⟩
  obtain ⟨v, hv⟩ := Option.isSome_iff_exists.mp this
  exact ⟨v.2, by rw [hv]; rfl⟩

/-- A candidate's file was listed. -/
theorem candidate_mem_files {p : Parser} {fs : FileSys} {q : Date}
    {fd : String × Date} (h : fd ∈ candidates p fs q) :
    fd.1 ∈ (fs.map Prod.fst).filter (matchesWorkplaceGlob p) := by
  obtain ⟨f, d⟩ := fd
  have := (candidates_mem_iff p fs q f d).mp h
  exact List.mem_filter.mpr ⟨this.1, this.2.1⟩

/-- Three dated Acme notes, as in the spec's example. -/
def exampleFs : FileSys :=
  [("2025-01-15-Acme.md", ["---", "date: 2025-01-15", "---"]),
   ("2025-01-17-Acme.md", ["---", "date: 2025-01-17", "---"]),
   ("2025-01-18-Acme.md", ["---", "date: 2025-01-18", "---"])]

/-- A parser bound to workplace Acme. -/
def acmeParser : Parser := ⟨"notes", "Acme"⟩

/-- C3: `FindMostRecentNote` considers exactly the files matching the
workplace pattern whose embedded date parses and is strictly before the
query date; it returns `none` exactly when no candidate exists, returns
the decoded note of the maximum-dated candidate, and behaves as the spec's
three dated examples demand. -/
theorem findMostRecent_spec :
    (∀ (p : Parser) (fs : FileSys) (q : Date) (f : String) (d : Date),
      (f, d) ∈ candidates p fs q ↔
        (f ∈ fs.map Prod.fst ∧ matchesWorkplaceGlob p f = true ∧
         filenameDate f = some d ∧ d.before q = true)) ∧
    (∀ (p : Parser) (fs : FileSys) (q : Date),
      findMostRecentNote p fs q = none ↔ candidates p fs q = []) ∧
    (∀ (p : Parser) (fs : FileSys) (q : Date) (f : String) (d : Date),
      (f, d) ∈ candidates p fs q →
      (∀ g e, (g, e) ∈ candidates p fs q → (g, e) ≠ (f, d) →
        e.before d = true) →
      findMostRecentNote p fs q = (fsRead fs f).map (parseLines f)) ∧
    ((findMostRecentNote acmeParser exampleFs ⟨2025, 1, 19⟩).map
        (fun n => (n.filePath, n.date)) =
      some ("2025-01-18-Acme.md", ⟨2025, 1, 18⟩)) ∧
    ((findMostRecentNote acmeParser exampleFs ⟨2025, 1, 16⟩).map
        (fun n => (n.filePath, n.date)) =
      some ("2025-01-15-Acme.md", ⟨2025, 1, 15⟩)) ∧
    findMostRecentNote acmeParser exampleFs ⟨2025, 1, 15⟩ = none := by
  refine ⟨candidates_mem_iff, ?_, ?_, by decide, by decide, by decide⟩
  · intro p fs q
    unfold findMostRecentNote
    dsimp only
    split
    · rename_i hf
      rw [List.isEmpty_iff] at hf
      have : candidates p fs q = [] := by
        unfold candidates
        rw [hf]
        rfl
      simp [this]
    · rename_i hf
      cases hh : (sortByDateDesc (candidates p fs q)).head? with
      | none =>
        rw [List.head?_eq_none_iff] at hh
        rw [← sortByDateDesc_eq_nil_iff]
        simp [hh]
      | some fd =>
        have hmem : fd ∈ candidates p fs q :=
          mem_sortByDateDesc.mp (List.mem_of_mem_head? hh)
        have hne : candidates p fs q ≠ [] := List.ne_nil_of_mem hmem
        obtain ⟨ls, hls⟩ := fsRead_isSome_of_mem
          (List.mem_filter.mp (candidate_mem_files hmem)).1
        simp [hls, hne]
  · intro p fs q f d hmem hmax
    have hfiles := candidate_mem_files hmem
    have hne : sortByDateDesc (candidates p fs q) ≠ [] := by
      rw [Ne, sortByDateDesc_eq_nil_iff]
      exact List.ne_nil_of_mem hmem
    rcases hs : sortByDateDesc (candidates p fs q) with _ | ⟨x, rest⟩
    · exact absurd hs hne
    · obtain ⟨hxmem, hxmax⟩ := sortDesc_head_max _ x rest hs
      have hx : x = (f, d) := by
        by_contra hxne
        have h1 : x.2.before d = true := hmax x.1 x.2 hxmem (by
          intro hc
          exact hxne (by rw [← hc]))
        have h2 : x.2.before d = false := hxmax (f, d) hmem
        rw [h1] at h2
        cases h2
      unfold findMostRecentNote
      dsimp only
      rw [if_neg (by
        rw [List.isEmpty_iff]
        exact List.ne_nil_of_mem hfiles), hs, hx]
      rfl

theorem findMostRecent_spec_witness :
    findMostRecentNote acmeParser exampleFs ⟨2025, 1, 19⟩ =
      (fsRead exampleFs "2025-01-18-Acme.md").map
        (parseLines "2025-01-18-Acme.md") := by
  refine findMostRecent_spec.2.2.1 acmeParser exampleFs ⟨2025, 1, 19⟩
    "2025-01-18-Acme.md" ⟨2025, 1, 18⟩ (by decide) ?_
  intro g e hmem hne
  have hc : candidates acmeParser exampleFs ⟨2025, 1, 19⟩ =
      [("2025-01-15-Acme.md", ⟨2025, 1, 15⟩),
       ("2025-01-17-Acme.md", ⟨2025, 1, 17⟩),
       ("2025-01-18-Acme.md", ⟨2025, 1, 18⟩)] := by decide
  rw [hc] at hmem
  fin_cases hmem
  · decide
  · decide
  · exact absurd rfl hne

/-! ## C2: round trip of encode and decode.  Helper facts first. -/

theorem head?_append_ne {l₁ l₂ : List Char} (h : l₁ ≠ []) :
    (l₁ ++ l₂).head? = l₁.head? := by
  rw [List.head?_append]
  cases l₁ with
  | nil => exact absurd rfl h
  | cons a t => rfl

theorem getLast?_append_ne {l₁ l₂ : List Char} (h : l₂ ≠ []) :
    (l₁ ++ l₂).getLast? = l₂.getLast? := by
  rw [List.getLast?_append]
  cases l₂ with
  | nil => exact absurd rfl h
  | cons a t => simp [List.getLast?_cons]

theorem str_ne_of_data_ne {s t : String} (h : s.data ≠ t.data) : s ≠ t :=
  fun he => h (he ▸ rfl)

theorem digitChar_ws {k : Nat} (h : k ≤ 9) :
    (digitChar k).isWhitespace = false := by
  interval_cases k <;> decide

theorem digitChar_ne_nl {k : Nat} (h : k ≤ 9) : digitChar k ≠ '\n' := by
  interval_cases k <;> decide

theorem charDigit_digitChar {k : Nat} (h : k ≤ 9) :
    charDigit (digitChar k) = some k := by
  interval_cases k <;> decide

/-- Formatting a valid date and parsing it back is the identity. -/
theorem parseIso_dateToIso {d : Date} (h : validDate d) :
    parseIsoChars (dateToIsoChars d) = some d := by
  obtain ⟨hy, hm1, hm2, hd1, hd2⟩ := h
  have hdm : daysInMonth d.year d.month ≤ 31 := by
    unfold daysInMonth
    split_ifs <;> omega
  unfold dateToIsoChars pad4 pad2
  simp only [List.cons_append, List.nil_append]
  simp only [parseIsoChars]
  rw [if_pos (by constructor <;> trivial)]
  rw [charDigit_digitChar (by omega), charDigit_digitChar (by omega),
    charDigit_digitChar (by omega), charDigit_digitChar (by omega),
    charDigit_digitChar (by omega), charDigit_digitChar (by omega),
    charDigit_digitChar (by omega), charDigit_digitChar (by omega)]
  dsimp only
  have hyr : ((d.year / 1000 * 10 + d.year / 100 % 10) * 10 + d.year / 10 % 10) * 10 +
      d.year % 10 = d.year := by omega
  have hmr : d.month / 10 * 10 + d.month % 10 = d.month := by omega
  have hdr : d.day / 10 * 10 + d.day % 10 = d.day := by omega
  rw [hyr, hmr, hdr, if_pos ⟨hm1, hm2, hd1, hd2⟩]

/-- Wire-safe characters: printable in a single line. -/
def okChars (l : List Char) : Prop :=
  ∀ c ∈ l, c.isWhitespace = false ∧ c ≠ '\n'

theorem okChars_append {l₁ l₂ : List Char} (h1 : okChars l₁) (h2 : okChars l₂) :
    okChars (l₁ ++ l₂) := by
  intro c hc
  rcases List.mem_append.mp hc with h | h
  · exact h1 c h
  · exact h2 c h

theorem goodLine_of_okChars {s : String} (h : okChars s.data) : goodLine s := by
  refine ⟨?_, ?_, fun hm => (h '\n' hm).2 rfl⟩
  · intro c hc
    exact (h c (List.mem_of_mem_head? hc)).1
  · intro c hc
    exact (h c (List.mem_of_getLast?_eq_some hc)).1

theorem okChars_natChars (n : Nat) : okChars (natChars n) := by
  induction n using Nat.strong_induction_on with
  | _ n ih =>
    intro c hc
    rw [natChars] at hc
    split at hc
    · rename_i h
      rw [List.mem_singleton] at hc
      subst hc
      exact ⟨digitChar_ws (by omega), digitChar_ne_nl (by omega)⟩
    · rename_i h
      rcases List.mem_append.mp hc with h2 | h2
      · exact ih (n / 10) (Nat.div_lt_self (by omega) (by omega)) c h2
      · rw [List.mem_singleton] at h2
        subst h2
        exact ⟨digitChar_ws (by omega), digitChar_ne_nl (by omega)⟩

theorem okChars_pad4 {y : Nat} (hy : y ≤ 9999) : okChars (pad4 y) := by
  intro c hc
  unfold pad4 at hc
  fin_cases hc <;>
    exact ⟨digitChar_ws (by omega), digitChar_ne_nl (by omega)⟩

theorem okChars_pad2 {m : Nat} (hm : m ≤ 99) : okChars (pad2 m) := by
  intro c hc
  unfold pad2 at hc
  fin_cases hc <;>
    exact ⟨digitChar_ws (by omega), digitChar_ne_nl (by omega)⟩

theorem okChars_monthAbbrev (m : Nat) : okChars (monthAbbrev m).data := by
  unfold okChars
  by_cases h : m ≤ 12
  · interval_cases m <;> decide
  · unfold monthAbbrev
    repeat rw [if_neg (by omega)]
    decide

theorem daysInMonth_le (y m : Nat) : daysInMonth y m ≤ 31 := by
  unfold daysInMonth
  split_ifs <;> omega

theorem okChars_dateToIso {d : Date} (h : validDate d) :
    okChars (dateToIsoChars d) := by
  obtain ⟨hy, hm1, hm2, hd1, hd2⟩ := h
  have hdm := daysInMonth_le d.year d.month
  unfold dateToIsoChars pad4 pad2
  simp only [List.cons_append, List.nil_append]
  intro c hc
  fin_cases hc <;>
    first
      | exact ⟨by decide, by decide⟩
      | exact ⟨digitChar_ws (by omega), digitChar_ne_nl (by omega)⟩

theorem dmy_data {d : Date} : (dateDayMonYear d).data =
    ((natChars d.day ++ ['-']) ++ (monthAbbrev d.month).data ++ ['-']) ++
      pad4 d.year := by
  unfold dateDayMonYear
  simp only [String.data_append]

theorem okChars_dmy {d : Date} (h : validDate d) :
    okChars (dateDayMonYear d).data := by
  rw [dmy_data]
  refine okChars_append (okChars_append (okChars_append
    (okChars_append (okChars_natChars d.day) ?_) (okChars_monthAbbrev d.month)) ?_)
    (okChars_pad4 h.1)
  all_goals
    intro c hc
    rw [List.mem_singleton] at hc
    subst hc
    exact ⟨by decide, by decide⟩

theorem dmy_data_ne_nil {d : Date} : (dateDayMonYear d).data ≠ [] := by
  rw [dmy_data]
  intro hcon
  have := congrArg List.length hcon
  simp [pad4] at this

theorem generateID_data {d : Date} {w : String} : (generateID d w).data =
    (w.data ++ ['-']) ++ (dateDayMonYear d).data := by
  unfold generateID
  simp only [String.data_append]

theorem goodLine_dateToIso {d : Date} (h : validDate d) :
    goodLine (dateToIso d) :=
  goodLine_of_okChars (okChars_dateToIso h)

theorem goodLine_generateID {d : Date} {w : String} (h : validDate d)
    (hw : goodLine w) : goodLine (generateID d w) := by
  have hdmy := okChars_dmy h
  refine ⟨?_, ?_, ?_⟩
  · rw [generateID_data, head?_append_ne (by simp)]
    cases hwd : w.data with
    | nil =>
      simp only [hwd, List.nil_append]
      intro c hc
      rw [List.head?_cons, Option.mem_some_iff] at hc
      subst hc
      decide
    | cons a t =>
      rw [head?_append_ne (by simp [hwd])]
      intro c hc
      exact hw.1 c (hwd ▸ hc)
  · rw [generateID_data, getLast?_append_ne dmy_data_ne_nil]
    intro c hc
    exact (hdmy c (List.mem_of_getLast?_eq_some hc)).1
  · rw [generateID_data]
    intro hc
    rcases List.mem_append.mp hc with h2 | h2
    · rcases List.mem_append.mp h2 with h3 | h3
      · exact hw.2.2 h3
      · rw [List.mem_singleton] at h3
        cases h3
    · exact (hdmy '
' h2).2 rfl

/-! ## The mutation API as note-building operations -/

/-- One mutation of a note through the system's own operations: the item
mutators of `note.go` plus the two summary-field assignments performed by
`runStart`. -/
inductive Op where
  | addPending (text : String)
  | addCompleted (text : String)
  | removePending (i : Int)
  | removeCompleted (i : Int)
  | markCompleted (i : Int)
  | setSummary (s : String)
  | setYesterdaySummary (s : String)

/-- Apply one mutation. -/
def applyOp (n : Note) : Op → Note
  | .addPending t => n.addPendingItem t
  | .addCompleted t => n.addCompletedItem t
  | .removePending i => n.removePendingItem i
  | .removeCompleted i => n.removeCompletedItem i
  | .markCompleted i => n.markItemCompleted i
  | .setSummary s => { n with summary := s }
  | .setYesterdaySummary s => { n with yesterdaySummary := s }

/-- A note built entirely through the system's own operations, starting
from `NewNote`. -/
def buildNote (date : Date) (workplaceName : String) (ops : List Op) : Note :=
  ops.foldl applyOp (newNote date workplaceName)

/-- The texts an operation carries are wire-safe. -/
def opOK : Op → Prop
  | .addPending t => goodText t
  | .addCompleted t => goodText t
  | .removePending _ => True
  | .removeCompleted _ => True
  | .markCompleted _ => True
  | .setSummary s => goodLine s
  | .setYesterdaySummary s => goodLine s

/-- The invariant under which a note survives an encode/decode round
trip on the fields the format stores. -/
def noteRT (n : Note) : Prop :=
  goodLine n.id ∧
  (∀ t ∈ n.tags, goodLine t) ∧
  '\n' ∉ n.title.data ∧
  goodLine n.summary ∧
  goodLine n.yesterdaySummary ∧
  (∀ i ∈ n.pendingWork, goodText i.text ∧ i.completed = false) ∧
  (∀ i ∈ n.completedWork, goodText i.text ∧ i.completed = true) ∧
  validDate n.date ∧
  n.aliases = []

theorem goodLine_empty : goodLine "" := ⟨by decide, by decide, by decide⟩

theorem goodLine_job : goodLine "job" := ⟨by decide, by decide, by decide⟩

theorem noteRT_newNote {d : Date} {w : String} (hd : validDate d)
    (hw : goodLine w) (hwl : goodLine (toLowerCase w)) :
    noteRT (newNote d w) := by
  refine ⟨goodLine_generateID hd hw, ?_, ?_, goodLine_empty, goodLine_empty,
    ?_, ?_, hd, rfl⟩
  · intro t ht
    rcases List.mem_cons.mp ht with h | h
    · subst h; exact hwl
    · rw [List.mem_singleton] at h
      subst h
      exact goodLine_job
  · exact fun hc => ((okChars_dateToIso hd) '\n' hc).2 rfl
  · intro i hi; cases hi
  · intro i hi; cases hi

theorem noteRT_applyOp {n : Note} {op : Op} (h : noteRT n) (hop : opOK op) :
    noteRT (applyOp n op) := by
  obtain ⟨h1, h2, h3, h4, h5, h6, h7, h8, h9⟩ := h
  cases op with
  | addPending t =>
    refine ⟨h1, h2, h3, h4, h5, ?_, h7, h8, h9⟩
    intro i hi
    rcases List.mem_append.mp hi with hm | hm
    · exact h6 i hm
    · rw [List.mem_singleton] at hm
      subst hm
      exact ⟨hop, rfl⟩
  | addCompleted t =>
    refine ⟨h1, h2, h3, h4, h5, h6, ?_, h8, h9⟩
    intro i hi
    rcases List.mem_append.mp hi with hm | hm
    · exact h7 i hm
    · rw [List.mem_singleton] at hm
      subst hm
      exact ⟨hop, rfl⟩
  | removePending i =>
    show noteRT (n.removePendingItem i)
    unfold Note.removePendingItem
    split
    · refine ⟨h1, h2, h3, h4, h5, ?_, h7, h8, h9⟩
      intro j hj
      rcases List.mem_append.mp hj with hm | hm
      · exact h6 j (List.take_subset _ _ hm)
      · exact h6 j (List.drop_subset _ _ hm)
    · exact ⟨h1, h2, h3, h4, h5, h6, h7, h8, h9⟩
  | removeCompleted i =>
    show noteRT (n.removeCompletedItem i)
    unfold Note.removeCompletedItem
    split
    · refine ⟨h1, h2, h3, h4, h5, h6, ?_, h8, h9⟩
      intro j hj
      rcases List.mem_append.mp hj with hm | hm
      · exact h7 j (List.take_subset _ _ hm)
      · exact h7 j (List.drop_subset _ _ hm)
    · exact ⟨h1, h2, h3, h4, h5, h6, h7, h8, h9⟩
  | markCompleted i =>
    show noteRT (n.markItemCompleted i)
    unfold Note.markItemCompleted
    split
    · rename_i hin
      dsimp only
      cases hget : n.pendingWork.get? i.toNat with
      | none => exact ⟨h1, h2, h3, h4, h5, h6, h7, h8, h9⟩
      | some item =>
        refine ⟨h1, h2, h3, h4, h5, ?_, ?_, h8, h9⟩
        · intro j hj
          rcases List.mem_append.mp hj with hm | hm
          · exact h6 j (List.take_subset _ _ hm)
          · exact h6 j (List.drop_subset _ _ hm)
        · intro j hj
          rcases List.mem_append.mp hj with hm | hm
          · exact h7 j hm
          · rw [List.mem_singleton] at hm
            subst hm
            exact ⟨(h6 item (List.get?_mem hget)).1, rfl⟩
    · exact ⟨h1, h2, h3, h4, h5, h6, h7, h8, h9⟩
  | setSummary s => exact ⟨h1, h2, h3, hop, h5, h6, h7, h8, h9⟩
  | setYesterdaySummary s => exact ⟨h1, h2, h3, h4, hop, h6, h7, h8, h9⟩

theorem noteRT_foldl : ∀ (ops : List Op) (n : Note), noteRT n →
    (∀ op ∈ ops, opOK op) → noteRT (ops.foldl applyOp n) := by
  intro ops
  induction ops with
  | nil => intro n h _; exact h
  | cons op rest ih =>
    intro n h hops
    rw [List.foldl_cons]
    exact ih _ (noteRT_applyOp h (hops op (List.mem_cons_self _ _)))
      (fun o ho => hops o (List.mem_cons_of_mem _ ho))

theorem noteRT_buildNote {d : Date} {w : String} {ops : List Op}
    (hd : validDate d) (hw : goodLine w) (hwl : goodLine (toLowerCase w))
    (hops : ∀ op ∈ ops, opOK op) : noteRT (buildNote d w ops) :=
  noteRT_foldl ops _ (noteRT_newNote hd hw hwl) hops

/-! ## Scanner step lemmas for each encoded line shape -/

theorem strDrop_literal {p : String} (s : String) {n : Nat}
    (h : p.data.length = n) : strDrop (p ++ s) n = s := by
  unfold strDrop
  rw [String.data_append, ← h, List.drop_left, strMk_data]

theorem strTrim_eq_self {s : String} (h1 : ∀ c ∈ s.data.head?, c.isWhitespace = false)
    (h2 : ∀ c ∈ s.data.getLast?, c.isWhitespace = false) : strTrim s = s := by
  unfold strTrim
  rw [trimChars_eq_self h1 h2, strMk_data]

theorem trimChars_space_cons {l : List Char} : trimChars (' ' :: l) = trimChars l :=
  trimChars_ws_cons (by decide) l

theorem parseLine_dashes (p : ParseState) :
    parseLine p "---" = { p with inFrontmatter := !p.inFrontmatter } := by
  unfold parseLine
  rw [if_pos rfl]

theorem parseLine_fm {p : ParseState} (line : String)
    (hfm : p.inFrontmatter = true) (hne : line ≠ "---") :
    parseLine p line = { p with note := parseFrontmatterLine line p.note } := by
  unfold parseLine
  rw [if_neg hne, if_pos hfm]

/-- The shared helper behind the bullet rule (two spaces, dash, space). -/
theorem fmLine_bullet {line : String} (note : Note)
    (h : strStartsWith line tagBullet = true) :
    parseFrontmatterLine line note =
      { note with tags := note.tags ++ [strTrim (strDrop line 4)] } := by
  obtain ⟨t, ht⟩ := strStartsWith_iff.mp h
  rw [tagBullet_data] at ht
  unfold parseFrontmatterLine
  rw [strStartsWith_false_of_data _ ht (by rw [idKey_data]; intro u; simp),
    strStartsWith_false_of_data _ ht (by rw [dateKey_data]; intro u; simp)]
  simp [h]

theorem fmLine_id {s : String} (note : Note) (hs : goodLine s) :
    parseFrontmatterLine ("id: " ++ s) note = { note with id := s } := by
  have hd : ("id: " ++ s).data = idKey.data ++ (' ' :: s.data) := by
    rw [String.data_append]; rfl
  unfold parseFrontmatterLine
  rw [if_pos (strStartsWith_iff.mpr ⟨' ' :: s.data, hd⟩)]
  have hdrop : strDrop ("id: " ++ s) 3 = String.mk (' ' :: s.data) := by
    unfold strDrop
    rw [String.data_append]
    rfl
  rw [hdrop]
  unfold strTrim
  rw [show (String.mk (' ' :: s.data)).data = ' ' :: s.data from rfl,
    trimChars_space_cons, trimChars_eq_self hs.1 hs.2.1, strMk_data]

theorem fmLine_skip {line : String} (note : Note)
    (h1 : strStartsWith line idKey = false)
    (h2 : strStartsWith line dateKey = false)
    (h3 : strStartsWith line tagBullet = false) :
    parseFrontmatterLine line note = note := by
  unfold parseFrontmatterLine
  rw [h1, h2, h3]
  simp

theorem dateToIsoChars_head (d : Date) :
    (dateToIsoChars d).head? = some (digitChar (d.year / 1000)) := rfl

theorem dateToIsoChars_getLast (d : Date) :
    (dateToIsoChars d).getLast? = some (digitChar (d.day % 10)) := by
  rw [show dateToIsoChars d =
    [digitChar (d.year / 1000), digitChar (d.year / 100 % 10),
     digitChar (d.year / 10 % 10), digitChar (d.year % 10), '-',
     digitChar (d.month / 10), digitChar (d.month % 10), '-',
     digitChar (d.day / 10)] ++ [digitChar (d.day % 10)] from rfl,
    getLast?_append_ne (by simp)]
  rfl

theorem fmLine_date {d : Date} (note : Note) (hd : validDate d) :
    parseFrontmatterLine ("date: " ++ dateToIso d) note =
      { note with date := d } := by
  have hdata : ("date: " ++ dateToIso d).data =
      dateKey.data ++ (' ' :: dateToIsoChars d) := by
    rw [String.data_append]; rfl
  unfold parseFrontmatterLine
  rw [strStartsWith_false_of_data _ hdata
    (by rw [idKey_data, dateKey_data]; intro u; simp),
    if_pos (strStartsWith_iff.mpr ⟨' ' :: dateToIsoChars d, hdata⟩)]
  have hdrop : strDrop ("date: " ++ dateToIso d) 5 =
      String.mk (' ' :: dateToIsoChars d) := by
    unfold strDrop
    rw [String.data_append]
    rfl
  rw [hdrop]
  have htrim : strTrim (String.mk (' ' :: dateToIsoChars d)) =
      String.mk (dateToIsoChars d) := by
    unfold strTrim
    rw [show (String.mk (' ' :: dateToIsoChars d)).data =
      ' ' :: dateToIsoChars d from rfl, trimChars_space_cons,
      trimChars_eq_self ?_ ?_]
    · intro c hc
      rw [dateToIsoChars_head d, Option.mem_some_iff] at hc
      subst hc
      have hy := hd.1
      exact digitChar_ws (by omega)
    · intro c hc
      rw [dateToIsoChars_getLast d, Option.mem_some_iff] at hc
      subst hc
      exact digitChar_ws (by omega)
  rw [htrim]
  unfold parseIso
  rw [show (String.mk (dateToIsoChars d)).data = dateToIsoChars d from rfl,
    parseIso_dateToIso hd]
  simp

theorem titleMark_data : titleMark.data = ['#', ' '] := rfl
theorem summaryMark_data :
    summaryMark.data = ['s', 'u', 'm', 'm', 'a', 'r', 'y', ':', ':'] := rfl
theorem ySummaryMark_data : ySummaryMark.data =
    ['y', 'e', 's', 't', 'e', 'r', 'd', 'a', 'y', apos, 's', ' ',
     's', 'u', 'm', 'm', 'a', 'r', 'y', ':', ':'] := rfl
theorem pendingHeader_data : pendingHeader.data =
    ['#', '#', ' ', 'P', 'e', 'n', 'd', 'i', 'n', 'g', ' ', 'W', 'o', 'r', 'k'] := rfl

theorem parseLine_title {p : ParseState} (t : String)
    (hfm : p.inFrontmatter = false) :
    parseLine p ("# " ++ t) = { p with note := { p.note with title := t } } := by
  have hdata : ("# " ++ t).data = ['#', ' '] ++ t.data := by
    rw [String.data_append]
  unfold parseLine
  rw [if_neg (str_ne_of_data_ne (by rw [hdata]; intro h; simp at h)), hfm]
  simp only [Bool.false_eq_true, if_false]
  rw [if_pos (strStartsWith_iff.mpr ⟨t.data, by rw [hdata]; rfl⟩),
    strDrop_literal t (show ("# " : String).data.length = 2 from rfl)]

theorem parseLine_summary {p : ParseState} (s : String)
    (hfm : p.inFrontmatter = false) (hs : goodLine s) :
    parseLine p ("summary:: " ++ s) =
      { p with note := { p.note with summary := s } } := by
  have hdata : ("summary:: " ++ s).data =
      ['s', 'u', 'm', 'm', 'a', 'r', 'y', ':', ':', ' '] ++ s.data := by
    rw [String.data_append]
  unfold parseLine
  rw [if_neg (str_ne_of_data_ne (by rw [hdata]; intro h; simp at h)), hfm]
  simp only [Bool.false_eq_true, if_false]
  rw [strStartsWith_false_of_data _ hdata
    (by rw [titleMark_data]; intro u; simp)]
  simp only [Bool.false_eq_true, if_false]
  rw [if_pos (strStartsWith_iff.mpr ⟨' ' :: s.data, by rw [hdata]; rfl⟩)]
  have hdrop : strDrop ("summary:: " ++ s) 9 = String.mk (' ' :: s.data) := by
    unfold strDrop
    rw [String.data_append]
    rfl
  rw [hdrop]
  unfold strTrim
  rw [show (String.mk (' ' :: s.data)).data = ' ' :: s.data from rfl,
    trimChars_space_cons, trimChars_eq_self hs.1 hs.2.1, strMk_data]

theorem parseLine_ysummary {p : ParseState} (s : String)
    (hfm : p.inFrontmatter = false) (hs : goodLine s) :
    parseLine p (ySummaryMark ++ " " ++ s) =
      { p with note := { p.note with yesterdaySummary := s } } := by
  have hdata : (ySummaryMark ++ " " ++ s).data =
      ['y', 'e', 's', 't', 'e', 'r', 'd', 'a', 'y', apos, 's', ' ',
       's', 'u', 'm', 'm', 'a', 'r', 'y', ':', ':', ' '] ++ s.data := by
    rw [String.data_append, String.data_append]
    rfl
  unfold parseLine
  rw [if_neg (str_ne_of_data_ne (by rw [hdata]; intro h; simp at h)), hfm]
  simp only [Bool.false_eq_true, if_false]
  rw [strStartsWith_false_of_data _ hdata
    (by rw [titleMark_data]; intro u; simp),
    strStartsWith_false_of_data _ hdata
    (by rw [summaryMark_data]; intro u; simp)]
  simp only [Bool.false_eq_true, if_false]
  rw [if_pos (strStartsWith_iff.mpr ⟨' ' :: s.data,
    by rw [String.data_append, String.data_append]; rfl⟩)]
  have hdrop : strDrop (ySummaryMark ++ " " ++ s) 21 =
      String.mk (' ' :: s.data) := by
    unfold strDrop
    rw [String.data_append, String.data_append]
    rfl
  rw [hdrop]
  unfold strTrim
  rw [show (String.mk (' ' :: s.data)).data = ' ' :: s.data from rfl,
    trimChars_space_cons, trimChars_eq_self hs.1 hs.2.1, strMk_data]

theorem parseLine_pendingHeader {p : ParseState}
    (hfm : p.inFrontmatter = false) :
    parseLine p "## Pending Work" =
      { p with inPending := true, inCompleted := false } := by
  unfold parseLine
  rw [if_neg (by decide), hfm]
  simp only [Bool.false_eq_true, if_false]
  rw [show strStartsWith "## Pending Work" titleMark = false from by decide,
    show strStartsWith "## Pending Work" summaryMark = false from by decide,
    show strStartsWith "## Pending Work" ySummaryMark = false from by decide,
    show strStartsWith "## Pending Work" pendingHeader = true from by decide]
  simp

theorem parseLine_completedHeader {p : ParseState}
    (hfm : p.inFrontmatter = false) :
    parseLine p "## Work Completed" =
      { p with inPending := false, inCompleted := true } := by
  unfold parseLine
  rw [if_neg (by decide), hfm]
  simp only [Bool.false_eq_true, if_false]
  rw [show strStartsWith "## Work Completed" titleMark = false from by decide,
    show strStartsWith "## Work Completed" summaryMark = false from by decide,
    show strStartsWith "## Work Completed" ySummaryMark = false from by decide,
    show strStartsWith "## Work Completed" pendingHeader = false from by decide,
    show strStartsWith "## Work Completed" completedHeader = true from by decide]
  simp

theorem parseLine_blank {p : ParseState} (hfm : p.inFrontmatter = false) :
    parseLine p "" = p := by
  unfold parseLine
  rw [if_neg (by decide), hfm]
  simp only [Bool.false_eq_true, if_false]
  rw [show strStartsWith "" titleMark = false from by decide,
    show strStartsWith "" summaryMark = false from by decide,
    show strStartsWith "" ySummaryMark = false from by decide,
    show strStartsWith "" pendingHeader = false from by decide,
    show strStartsWith "" completedHeader = false from by decide]
  simp only [Bool.false_eq_true, if_false]
  rw [show parseWorkItem "" = none from rfl]
  split <;> split <;> rfl

theorem parseWorkItem_unchecked {t : String} (ht : goodText t) :
    parseWorkItem ("- [ ] " ++ t) = some { text := t, completed := false } := by
  have hdata : ("- [ ] " ++ t).data = ['-', ' ', '[', ' ', ']', ' '] ++ t.data := by
    rw [String.data_append]
  have htrim : strTrim ("- [ ] " ++ t) = "- [ ] " ++ t := by
    apply strTrim_eq_self
    · intro c hc
      rw [hdata, show ((['-', ' ', '[', ' ', ']', ' '] ++ t.data)).head? =
        some '-' from rfl, Option.mem_some_iff] at hc
      subst hc
      decide
    · intro c hc
      rw [hdata, getLast?_append_ne ht.2.1] at hc
      exact ht.1.2.1 c hc
  unfold parseWorkItem
  dsimp only
  rw [htrim, if_pos (strStartsWith_iff.mpr ⟨t.data, by rw [hdata]; rfl⟩),
    strDrop_literal t (show ("- [ ] " : String).data.length = 6 from rfl)]

theorem parseWorkItem_checked {t : String} (ht : goodText t) :
    parseWorkItem ("- [x] " ++ t) = some { text := t, completed := true } := by
  have hdata : ("- [x] " ++ t).data = ['-', ' ', '[', 'x', ']', ' '] ++ t.data := by
    rw [String.data_append]
  have htrim : strTrim ("- [x] " ++ t) = "- [x] " ++ t := by
    apply strTrim_eq_self
    · intro c hc
      rw [hdata, show ((['-', ' ', '[', 'x', ']', ' '] ++ t.data)).head? =
        some '-' from rfl, Option.mem_some_iff] at hc
      subst hc
      decide
    · intro c hc
      rw [hdata, getLast?_append_ne ht.2.1] at hc
      exact ht.1.2.1 c hc
  unfold parseWorkItem
  dsimp only
  rw [htrim, strStartsWith_false_of_data _ hdata
    (by rw [uncheckedMark_data]; intro u; simp)]
  simp only [Bool.false_eq_true, if_false]
  rw [show strStartsWith ("- [x] " ++ t) checkedLowerMark = true from
    strStartsWith_iff.mpr ⟨t.data, by rw [hdata]; rfl⟩]
  simp only [Bool.true_or, if_true]
  rw [strDrop_literal t (show ("- [x] " : String).data.length = 6 from rfl),
    ht.2.2]
  simp

theorem parseLine_itemChecks {t : String} (mark : String)
    (hdata : (mark ++ t).data = mark.data ++ t.data)
    (hm : mark.data = ['-', ' ', '[', ' ', ']', ' '] ∨
          mark.data = ['-', ' ', '[', 'x', ']', ' ']) :
    (mark ++ t) ≠ "---" ∧
    strStartsWith (mark ++ t) titleMark = false ∧
    strStartsWith (mark ++ t) summaryMark = false ∧
    strStartsWith (mark ++ t) ySummaryMark = false ∧
    strStartsWith (mark ++ t) pendingHeader = false ∧
    strStartsWith (mark ++ t) completedHeader = false := by
  rcases hm with hm | hm
  all_goals
    rw [hm] at hdata
    refine ⟨str_ne_of_data_ne (by rw [hdata]; intro h; simp at h),
      strStartsWith_false_of_data _ hdata (by rw [titleMark_data]; intro u; simp),
      strStartsWith_false_of_data _ hdata (by rw [summaryMark_data]; intro u; simp),
      strStartsWith_false_of_data _ hdata (by rw [ySummaryMark_data]; intro u; simp),
      strStartsWith_false_of_data _ hdata (by rw [pendingHeader_data]; intro u; simp),
      strStartsWith_false_of_data _ hdata (by intro u; simp [show completedHeader.data =
        ['#', '#', ' ', 'W', 'o', 'r', 'k', ' ', 'C', 'o', 'm', 'p', 'l', 'e',
         't', 'e', 'd'] from rfl])⟩

theorem parseLine_pendingItem {p : ParseState} {t : String}
    (hfm : p.inFrontmatter = false) (hp : p.inPending = true)
    (hc : p.inCompleted = false) (ht : goodText t) :
    parseLine p ("- [ ] " ++ t) =
      { p with note := { p.note with
          pendingWork := p.note.pendingWork ++ [{ text := t, completed := false }] } } := by
  obtain ⟨c1, c2, c3, c4, c5, c6⟩ := parseLine_itemChecks (t := t) "- [ ] "
    (by rw [String.data_append]) (Or.inl rfl)
  unfold parseLine
  rw [if_neg c1, hfm]
  simp only [Bool.false_eq_true, if_false]
  rw [c2, c3, c4, c5, c6]
  simp only [Bool.false_eq_true, if_false]
  rw [hp]
  simp only [if_true]
  rw [parseWorkItem_unchecked ht]
  dsimp only
  rw [hc]
  simp

theorem parseLine_completedItem {p : ParseState} {t : String}
    (hfm : p.inFrontmatter = false) (hp : p.inPending = false)
    (hc : p.inCompleted = true) (ht : goodText t) :
    parseLine p ("- [x] " ++ t) =
      { p with note := { p.note with
          completedWork := p.note.completedWork ++ [{ text := t, completed := true }] } } := by
  obtain ⟨c1, c2, c3, c4, c5, c6⟩ := parseLine_itemChecks (t := t) "- [x] "
    (by rw [String.data_append]) (Or.inr rfl)
  unfold parseLine
  rw [if_neg c1, hfm]
  simp only [Bool.false_eq_true, if_false]
  rw [c2, c3, c4, c5, c6]
  simp only [Bool.false_eq_true, if_false]
  rw [hp]
  simp only [Bool.false_eq_true, if_false]
  rw [hc]
  simp only [if_true]
  rw [parseWorkItem_checked ht]
  simp [hfm, hp]

/-! ## Folding whole encoded segments through the scanner -/

theorem foldl_tagLines (tags : List String) :
    ∀ (st : ParseState), st.inFrontmatter = true →
    (∀ t ∈ tags, goodLine t) →
    (tags.map (fun t => "  - " ++ t)).foldl parseLine st =
      { st with note := { st.note with tags := st.note.tags ++ tags } } := by
  induction tags with
  | nil =>
    intro st _ _
    simp
  | cons t ts ih =>
    intro st hfm hgood
    rw [List.map_cons, List.foldl_cons]
    have hstep : parseLine st ("  - " ++ t) =
        { st with note := { st.note with tags := st.note.tags ++ [t] } } := by
      have hdata : ("  - " ++ t).data = [' ', ' ', '-', ' '] ++ t.data := by
        rw [String.data_append]
      rw [parseLine_fm _ hfm (str_ne_of_data_ne (by rw [hdata]; intro h; simp at h)),
        fmLine_bullet _ (strStartsWith_iff.mpr ⟨t.data, by rw [hdata]; rfl⟩),
        strDrop_literal t (show ("  - " : String).data.length = 4 from rfl),
        strTrim_eq_self (hgood t (List.mem_cons_self t ts)).1
          (hgood t (List.mem_cons_self t ts)).2.1]
    rw [hstep, ih { st with note := { st.note with tags := st.note.tags ++ [t] } }
      hfm (fun u hu => hgood u (List.mem_cons_of_mem t hu))]
    simp

theorem foldl_pendingLines (items : List WorkItem) :
    ∀ (st : ParseState), st.inFrontmatter = false → st.inPending = true →
    st.inCompleted = false →
    (∀ i ∈ items, goodText i.text ∧ i.completed = false) →
    (items.map (fun i => "- [ ] " ++ i.text)).foldl parseLine st =
      { st with note := { st.note with
          pendingWork := st.note.pendingWork ++ items } } := by
  induction items with
  | nil =>
    intro st _ _ _ _
    simp
  | cons i is ih =>
    intro st hfm hp hc hgood
    rw [List.map_cons, List.foldl_cons,
      parseLine_pendingItem hfm hp hc (hgood i (List.mem_cons_self i is)).1,
      ih { st with note := { st.note with
          pendingWork := st.note.pendingWork ++ [{ text := i.text, completed := false }] } }
        hfm hp hc (fun u hu => hgood u (List.mem_cons_of_mem i hu))]
    have hi : ({ text := i.text, completed := false } : WorkItem) = i := by
      have := (hgood i (List.mem_cons_self i is)).2
      cases i
      simp_all
    rw [hi]
    simp

theorem foldl_completedLines (items : List WorkItem) :
    ∀ (st : ParseState), st.inFrontmatter = false → st.inPending = false →
    st.inCompleted = true →
    (∀ i ∈ items, goodText i.text ∧ i.completed = true) →
    (items.map (fun i => "- [x] " ++ i.text)).foldl parseLine st =
      { st with note := { st.note with
          completedWork := st.note.completedWork ++ items } } := by
  induction items with
  | nil =>
    intro st _ _ _ _
    simp
  | cons i is ih =>
    intro st hfm hp hc hgood
    rw [List.map_cons, List.foldl_cons,
      parseLine_completedItem hfm hp hc (hgood i (List.mem_cons_self i is)).1,
      ih { st with note := { st.note with
          completedWork := st.note.completedWork ++ [{ text := i.text, completed := true }] } }
        hfm hp hc (fun u hu => hgood u (List.mem_cons_of_mem i hu))]
    have hi : ({ text := i.text, completed := true } : WorkItem) = i := by
      have := (hgood i (List.mem_cons_self i is)).2
      cases i
      simp_all
    rw [hi]
    simp

theorem foldl_summarySeg (s : String) (st : ParseState)
    (hfm : st.inFrontmatter = false) (hs : goodLine s)
    (h0 : st.note.summary = "") :
    (if s = "" then [] else ["summary:: " ++ s, ""]).foldl parseLine st =
      { st with note := { st.note with summary := s } } := by
  split
  · rename_i he
    subst he
    rw [List.foldl_nil, ← h0]
  · rw [List.foldl_cons, parseLine_summary s hfm hs, List.foldl_cons,
      parseLine_blank (p := { st with note := { st.note with summary := s } }) hfm,
      List.foldl_nil]

theorem foldl_ysummarySeg (s : String) (st : ParseState)
    (hfm : st.inFrontmatter = false) (hs : goodLine s)
    (h0 : st.note.yesterdaySummary = "") :
    (if s = "" then [] else [ySummaryMark ++ " " ++ s, ""]).foldl parseLine st =
      { st with note := { st.note with yesterdaySummary := s } } := by
  split
  · rename_i he
    subst he
    rw [List.foldl_nil, ← h0]
  · rw [List.foldl_cons, parseLine_ysummary s hfm hs, List.foldl_cons,
      parseLine_blank
        (p := { st with note := { st.note with yesterdaySummary := s } }) hfm,
      List.foldl_nil]

/-- Decoding the encoded form of a round-trippable note recovers every
field the format stores (and stamps the file path it was read from). -/
theorem decode_encode {n : Note} (fp : String) (hn : noteRT n) :
    parseLines fp (encodeNote n) = { n with filePath := fp } := by
  obtain ⟨id, al, tg, dt, ti, su, ys, pw, cw, fpth⟩ := n
  obtain ⟨hid, htags, htitle, hsum, hysum, hpend, hcomp, hdate, halias⟩ := hn
  dsimp only at *
  subst halias
  have hneid : ("id: " ++ id) ≠ "---" := by
    intro he
    have hd := congrArg String.data he
    rw [String.data_append,
      show ("id: " : String).data = ['i', 'd', ':', ' '] from rfl,
      show ("---" : String).data = ['-', '-', '-'] from rfl] at hd
    simp at hd
  have hnedate : ("date: " ++ dateToIso dt) ≠ "---" := by
    intro he
    have hd := congrArg String.data he
    rw [String.data_append,
      show ("date: " : String).data = ['d', 'a', 't', 'e', ':', ' '] from rfl,
      show ("---" : String).data = ['-', '-', '-'] from rfl] at hd
    simp at hd
  unfold parseLines encodeNote
  rw [if_pos (by rfl)]
  dsimp only
  simp only [List.foldl_append, List.foldl_cons, List.foldl_nil]
  rw [show initialNote fp = ⟨"", [], [], Date.zero, "", "", "", [], [], fp⟩ from rfl]
  have e1 : parseLine ⟨false, false, false,
        ⟨"", [], [], Date.zero, "", "", "", [], [], fp⟩⟩ "---" =
      ⟨true, false, false, ⟨"", [], [], Date.zero, "", "", "", [], [], fp⟩⟩ := by
    rw [parseLine_dashes]
    try rfl
  have e2 : parseLine ⟨true, false, false,
        ⟨"", [], [], Date.zero, "", "", "", [], [], fp⟩⟩ ("id: " ++ id) =
      ⟨true, false, false, ⟨id, [], [], Date.zero, "", "", "", [], [], fp⟩⟩ := by
    rw [parseLine_fm _ rfl hneid, fmLine_id _ hid]
    try rfl
  have e3 : parseLine ⟨true, false, false,
        ⟨id, [], [], Date.zero, "", "", "", [], [], fp⟩⟩ "aliases: []" =
      ⟨true, false, false, ⟨id, [], [], Date.zero, "", "", "", [], [], fp⟩⟩ := by
    rw [parseLine_fm _ rfl (by decide),
      fmLine_skip _ (by decide) (by decide) (by decide)]
    try rfl
  have e4 : parseLine ⟨true, false, false,
        ⟨id, [], [], Date.zero, "", "", "", [], [], fp⟩⟩ "tags:" =
      ⟨true, false, false, ⟨id, [], [], Date.zero, "", "", "", [], [], fp⟩⟩ := by
    rw [parseLine_fm _ rfl (by decide),
      fmLine_skip _ (by decide) (by decide) (by decide)]
    try rfl
  have e5 : List.foldl parseLine ⟨true, false, false,
        ⟨id, [], [], Date.zero, "", "", "", [], [], fp⟩⟩
        (tg.map (fun t => "  - " ++ t)) =
      ⟨true, false, false, ⟨id, [], tg, Date.zero, "", "", "", [], [], fp⟩⟩ := by
    rw [foldl_tagLines tg ⟨true, false, false,
      ⟨id, [], [], Date.zero, "", "", "", [], [], fp⟩⟩ rfl htags]
    try rfl
  have e6 : parseLine ⟨true, false, false,
        ⟨id, [], tg, Date.zero, "", "", "", [], [], fp⟩⟩
        ("date: " ++ dateToIso dt) =
      ⟨true, false, false, ⟨id, [], tg, dt, "", "", "", [], [], fp⟩⟩ := by
    rw [parseLine_fm _ rfl hnedate, fmLine_date _ hdate]
    try rfl
  have e7 : parseLine ⟨true, false, false,
        ⟨id, [], tg, dt, "", "", "", [], [], fp⟩⟩ "---" =
      ⟨false, false, false, ⟨id, [], tg, dt, "", "", "", [], [], fp⟩⟩ := by
    rw [parseLine_dashes]
    try rfl
  have e8 : parseLine ⟨false, false, false,
        ⟨id, [], tg, dt, "", "", "", [], [], fp⟩⟩ "" =
      ⟨false, false, false, ⟨id, [], tg, dt, "", "", "", [], [], fp⟩⟩ := by
    rw [parseLine_blank rfl]
    try rfl
  have e9 : parseLine ⟨false, false, false,
        ⟨id, [], tg, dt, "", "", "", [], [], fp⟩⟩ ("# " ++ ti) =
      ⟨false, false, false, ⟨id, [], tg, dt, ti, "", "", [], [], fp⟩⟩ := by
    rw [parseLine_title _ rfl]
    try rfl
  have e10 : parseLine ⟨false, false, false,
        ⟨id, [], tg, dt, ti, "", "", [], [], fp⟩⟩ "" =
      ⟨false, false, false, ⟨id, [], tg, dt, ti, "", "", [], [], fp⟩⟩ := by
    rw [parseLine_blank rfl]
    try rfl
  have e11 : List.foldl parseLine ⟨false, false, false,
        ⟨id, [], tg, dt, ti, "", "", [], [], fp⟩⟩
        (if su = "" then [] else ["summary:: " ++ su, ""]) =
      ⟨false, false, false, ⟨id, [], tg, dt, ti, su, "", [], [], fp⟩⟩ := by
    rw [foldl_summarySeg su ⟨false, false, false,
      ⟨id, [], tg, dt, ti, "", "", [], [], fp⟩⟩ rfl hsum rfl]
    try rfl
  have e12 : List.foldl parseLine ⟨false, false, false,
        ⟨id, [], tg, dt, ti, su, "", [], [], fp⟩⟩
        (if ys = "" then [] else [ySummaryMark ++ " " ++ ys, ""]) =
      ⟨false, false, false, ⟨id, [], tg, dt, ti, su, ys, [], [], fp⟩⟩ := by
    rw [foldl_ysummarySeg ys ⟨false, false, false,
      ⟨id, [], tg, dt, ti, su, "", [], [], fp⟩⟩ rfl hysum rfl]
    try rfl
  have e13 : parseLine ⟨false, false, false,
        ⟨id, [], tg, dt, ti, su, ys, [], [], fp⟩⟩ "## Pending Work" =
      ⟨false, true, false, ⟨id, [], tg, dt, ti, su, ys, [], [], fp⟩⟩ := by
    rw [parseLine_pendingHeader rfl]
    try rfl
  have e14 : parseLine ⟨false, true, false,
        ⟨id, [], tg, dt, ti, su, ys, [], [], fp⟩⟩ "" =
      ⟨false, true, false, ⟨id, [], tg, dt, ti, su, ys, [], [], fp⟩⟩ := by
    rw [parseLine_blank rfl]
    try rfl
  have e15 : List.foldl parseLine ⟨false, true, false,
        ⟨id, [], tg, dt, ti, su, ys, [], [], fp⟩⟩
        (pw.map (fun item => "- [ ] " ++ item.text)) =
      ⟨false, true, false, ⟨id, [], tg, dt, ti, su, ys, pw, [], fp⟩⟩ := by
    rw [foldl_pendingLines pw ⟨false, true, false,
      ⟨id, [], tg, dt, ti, su, ys, [], [], fp⟩⟩ rfl rfl rfl hpend]
    try rfl
  have e16 : parseLine ⟨false, true, false,
        ⟨id, [], tg, dt, ti, su, ys, pw, [], fp⟩⟩ "" =
      ⟨false, true, false, ⟨id, [], tg, dt, ti, su, ys, pw, [], fp⟩⟩ := by
    rw [parseLine_blank rfl]
    try rfl
  have e17 : parseLine ⟨false, true, false,
        ⟨id, [], tg, dt, ti, su, ys, pw, [], fp⟩⟩ "## Work Completed" =
      ⟨false, false, true, ⟨id, [], tg, dt, ti, su, ys, pw, [], fp⟩⟩ := by
    rw [parseLine_completedHeader rfl]
    try rfl
  have e18 : parseLine ⟨false, false, true,
        ⟨id, [], tg, dt, ti, su, ys, pw, [], fp⟩⟩ "" =
      ⟨false, false, true, ⟨id, [], tg, dt, ti, su, ys, pw, [], fp⟩⟩ := by
    rw [parseLine_blank rfl]
    try rfl
  have e19 : List.foldl parseLine ⟨false, false, true,
        ⟨id, [], tg, dt, ti, su, ys, pw, [], fp⟩⟩
        (cw.map (fun item => "- [x] " ++ item.text)) =
      ⟨false, false, true, ⟨id, [], tg, dt, ti, su, ys, pw, cw, fp⟩⟩ := by
    rw [foldl_completedLines cw ⟨false, false, true,
      ⟨id, [], tg, dt, ti, su, ys, pw, [], fp⟩⟩ rfl rfl rfl hcomp]
    rfl
  rw [e1, e2, e3, e4, e5, e6, e7, e8, e9, e10, e11, e12, e13, e14, e15, e16,
    e17, e18, e19]

instance (s : String) : Decidable (goodLine s) := by
  unfold goodLine
  infer_instance

instance (s : String) : Decidable (goodText s) := by
  unfold goodText
  infer_instance

instance (op : Op) : Decidable (opOK op) := by
  cases op <;> dsimp only [opOK] <;> infer_instance

/-- The spec's round-trip claim fails on a note built through the mutation
API whose item text carries a trailing space: the decoder trims the
checkbox line, so the text comes back shortened. -/
def trailingSpaceOps : List Op :=
  [.addPending "a ", .addCompleted "b", .setSummary "s",
   .setYesterdaySummary "y"]

/-- C2 as stated is false: this mutation-built note has non-empty
summaries and one pending and one completed item, yet decoding its
encoding does not reproduce `pendingWork` (the trailing space of the
pending item's text is lost). -/
theorem roundtrip_counterexample :
    (buildNote ⟨2025, 1, 19⟩ "Acme" trailingSpaceOps).summary ≠ "" ∧
    (buildNote ⟨2025, 1, 19⟩ "Acme" trailingSpaceOps).yesterdaySummary ≠ "" ∧
    (buildNote ⟨2025, 1, 19⟩ "Acme" trailingSpaceOps).pendingWork ≠ [] ∧
    (buildNote ⟨2025, 1, 19⟩ "Acme" trailingSpaceOps).completedWork ≠ [] ∧
    (parseLines "p" (encodeNote (buildNote ⟨2025, 1, 19⟩ "Acme"
        trailingSpaceOps))).pendingWork ≠
      (buildNote ⟨2025, 1, 19⟩ "Acme" trailingSpaceOps).pendingWork := by
  decide

/-- C2 amended: for every note built through the system's own mutation
operations whose item texts are wire-safe (nonempty, no surrounding
whitespace, no newline, not starting with the uppercase checked marker),
whose summary texts and workplace name are single clean lines, and whose
date is a valid calendar date, decoding the encoding reproduces `id`,
`date`, `title`, `summary`, `yesterdaySummary`, `pendingWork`,
`completedWork` and `tags`. -/
theorem roundtrip_amended (d : Date) (w : String) (ops : List Op)
    (fp : String) (hd : validDate d) (hw : goodLine w)
    (hwl : goodLine (toLowerCase w)) (hops : ∀ op ∈ ops, opOK op) :
    (parseLines fp (encodeNote (buildNote d w ops))).id =
      (buildNote d w ops).id ∧
    (parseLines fp (encodeNote (buildNote d w ops))).date =
      (buildNote d w ops).date ∧
    (parseLines fp (encodeNote (buildNote d w ops))).title =
      (buildNote d w ops).title ∧
    (parseLines fp (encodeNote (buildNote d w ops))).summary =
      (buildNote d w ops).summary ∧
    (parseLines fp (encodeNote (buildNote d w ops))).yesterdaySummary =
      (buildNote d w ops).yesterdaySummary ∧
    (parseLines fp (encodeNote (buildNote d w ops))).pendingWork =
      (buildNote d w ops).pendingWork ∧
    (parseLines fp (encodeNote (buildNote d w ops))).completedWork =
      (buildNote d w ops).completedWork ∧
    (parseLines fp (encodeNote (buildNote d w ops))).tags =
      (buildNote d w ops).tags := by
  rw [decode_encode fp (noteRT_buildNote hd hw hwl hops)]
  exact ⟨rfl, rfl, rfl, rfl, rfl, rfl, rfl, rfl⟩

/-- The clean operations of the round-trip witness. -/
def cleanOps : List Op :=
  [.addPending "alpha", .addCompleted "beta", .setSummary "did stuff",
   .setYesterdaySummary "other stuff"]

theorem roundtrip_amended_witness :
    (parseLines "p" (encodeNote (buildNote ⟨2025, 1, 19⟩ "Acme" cleanOps))).id =
      (buildNote ⟨2025, 1, 19⟩ "Acme" cleanOps).id ∧
    (parseLines "p" (encodeNote (buildNote ⟨2025, 1, 19⟩ "Acme" cleanOps))).date =
      (buildNote ⟨2025, 1, 19⟩ "Acme" cleanOps).date ∧
    (parseLines "p" (encodeNote (buildNote ⟨2025, 1, 19⟩ "Acme" cleanOps))).title =
      (buildNote ⟨2025, 1, 19⟩ "Acme" cleanOps).title ∧
    (parseLines "p" (encodeNote (buildNote ⟨2025, 1, 19⟩ "Acme" cleanOps))).summary =
      (buildNote ⟨2025, 1, 19⟩ "Acme" cleanOps).summary ∧
    (parseLines "p" (encodeNote (buildNote ⟨2025, 1, 19⟩ "Acme" cleanOps))).yesterdaySummary =
      (buildNote ⟨2025, 1, 19⟩ "Acme" cleanOps).yesterdaySummary ∧
    (parseLines "p" (encodeNote (buildNote ⟨2025, 1, 19⟩ "Acme" cleanOps))).pendingWork =
      (buildNote ⟨2025, 1, 19⟩ "Acme" cleanOps).pendingWork ∧
    (parseLines "p" (encodeNote (buildNote ⟨2025, 1, 19⟩ "Acme" cleanOps))).completedWork =
      (buildNote ⟨2025, 1, 19⟩ "Acme" cleanOps).completedWork ∧
    (parseLines "p" (encodeNote (buildNote ⟨2025, 1, 19⟩ "Acme" cleanOps))).tags =
      (buildNote ⟨2025, 1, 19⟩ "Acme" cleanOps).tags :=
  roundtrip_amended ⟨2025, 1, 19⟩ "Acme" cleanOps "p" (by decide) (by decide)
    (by decide) (by decide)
